import Mathlib

/-!
Shallow embedding of the `diffparser` Go package (`diffparser.go`) and
verification of the specified properties of `Parse` and `Changed`.

Modelling conventions:
* Go strings are Lean `String`s; all byte-indexed Go operations used by the
  source (`line[:1]`, `line[:3]`, `l[1:]`, prefix tests) only ever compare
  against ASCII patterns, where byte indexing and char indexing agree, so
  they are modelled on `String.data` (a `List Char`).
* Go `int` counters in the source only ever hold non-negative values
  (they start from regex-parsed decimal literals or from 0 and are only
  incremented), so they are modelled as `Nat`; overflow of 64-bit `int`
  plays no role in any property below.
* The mutable pointers `file` and `hunk` of the source always point to the
  last appended file resp. the last hunk of the last appended file, so the
  pointer structure is modelled by updating the last element of the owning
  list.  A nil `file` pointer corresponds exactly to `files = []` (the
  pointer is assigned exactly when a file is appended); dereferencing nil
  is modelled by the `crash` outcome.
-/

set_option linter.unusedVariables false

namespace Diffparser

/-! ## Data model (`FileMode`, `DiffRange`, `DiffLineMode`, `DiffLine`,
`DiffHunk`, `DiffFile`, `Diff`) -/

inductive FileMode where
  | DELETED
  | MODIFIED
  | NEW
  | RENAMED
deriving DecidableEq, Repr

inductive DiffLineMode where
  | ADDED
  | REMOVED
  | UNCHANGED
deriving DecidableEq, Repr

structure DiffLine where
  Mode : DiffLineMode
  Number : Nat
  Content : String
  Position : Nat
deriving DecidableEq, Repr

structure DiffRange where
  Start : Nat
  Length : Nat
  Lines : List DiffLine
deriving DecidableEq, Repr

structure DiffHunk where
  HunkHeader : String
  OrigRange : DiffRange
  NewRange : DiffRange
  WholeRange : DiffRange
deriving DecidableEq, Repr

structure DiffFile where
  DiffHeader : String
  Mode : FileMode
  OrigName : String
  NewName : String
  Hunks : List DiffHunk
deriving DecidableEq, Repr

structure Diff where
  Files : List DiffFile
  Raw : String
deriving DecidableEq, Repr

/-! ## Models of the Go standard-library calls used by the source -/

/-- Model of `strings.HasPrefix s pre` (byte prefix; equal to char prefix since the
patterns used by the source are ASCII). -/
def strHasPref (s pre : String) : Bool :=
  pre.data.isPrefixOf s.data

/-- Model of Go's `unicode.IsSpace`: the full Unicode `White_Space` set —
the Latin-1 code points (ASCII whitespace, NEL, NBSP) plus OGHAM SPACE
MARK, the EN QUAD .. HAIR SPACE block, LINE/PARAGRAPH SEPARATOR, NARROW
NO-BREAK SPACE, MEDIUM MATHEMATICAL SPACE and IDEOGRAPHIC SPACE. -/
def goIsSpace (c : Char) : Bool :=
  c == ' ' || c == '\t' || c == '\n' || c.toNat == 11 || c.toNat == 12 ||
    c == '\r' || c.toNat == 133 || c.toNat == 160 || c.toNat == 5760 ||
    (8192 ≤ c.toNat && c.toNat ≤ 8202) || c.toNat == 8232 || c.toNat == 8233 ||
    c.toNat == 8239 || c.toNat == 8287 || c.toNat == 12288

/-- Split a char list at every char satisfying `p` (keeping empty pieces),
as Go's `strings.Split`/`strings.FieldsFunc` do before filtering. -/
def splitOnP (p : Char → Bool) : List Char → List (List Char)
  | [] => [[]]
  | c :: rest =>
    let r := splitOnP p rest
    if p c then [] :: r
    else
      match r with
      | h :: t => (c :: h) :: t
      | [] => [[c]]

/-- Model of `strings.Split s "\n"`. -/
def splitLines (s : String) : List String :=
  (splitOnP (fun c => c == '\n') s.data).map String.mk

/-- Model of `strings.Fields`: whitespace-separated tokens, empties dropped. -/
def goFields (s : String) : List String :=
  ((splitOnP goIsSpace s.data).filter (fun w => w ≠ [])).map String.mk

/-- Decimal value of a run of digit characters. -/
def natOfDigits (cs : List Char) : Nat :=
  cs.foldl (fun n c => n * 10 + (c.toNat - 48)) 0

/-- Model of `strconv.Atoi` on the digit runs produced by the hunk-header
regex (non-empty, decimal digits only, no sign): the value when it fits
Go's 64-bit `int`, and Go's range error otherwise — `Parse` propagates
that error (`return nil, err`). -/
def goAtoi (cs : List Char) : Except String Nat :=
  let n := natOfDigits cs
  if n ≤ 9223372036854775807 then Except.ok n
  else Except.error ("strconv.Atoi: parsing \"" ++ String.mk cs ++ "\": value out of range")

def exceptIsOk {α : Type} : Except String α → Bool
  | Except.ok _ => true
  | Except.error _ => false

/-- The four `strconv.Atoi` conversions of a matched hunk header, in the
order the source performs them (`a`, then `b` only when group 2 is
present, then `c`, then `d` only when group 4 is present), aborting with
the first error as the source's `return nil, err` does. -/
def hunkNums (g1 g2 g3 g4 : List Char) : Except String (Nat × Nat × Nat × Nat) :=
  match goAtoi g1 with
  | Except.error e => Except.error e
  | Except.ok a =>
    match (if g2 ≠ [] then goAtoi g2 else Except.ok a) with
    | Except.error e => Except.error e
    | Except.ok b =>
      match goAtoi g3 with
      | Except.error e => Except.error e
      | Except.ok c =>
        match (if g4 ≠ [] then goAtoi g4 else Except.ok c) with
        | Except.error e => Except.error e
        | Except.ok d => Except.ok (a, b, c, d)

/-! ## Models of the regular expressions used by the source -/

/-- Model of the `^index .+$` regex match (the lines being matched
never contain a newline, so `.` has no exclusions to make). -/
def matchIndexLine (s : String) : Bool :=
  match s.data with
  | 'i' :: 'n' :: 'd' :: 'e' :: 'x' :: ' ' :: rest => rest ≠ []
  | _ => false

/-- Model of the `^(-|\+){3} .+$` regex match. -/
def matchMarkerLine (s : String) : Bool :=
  match s.data with
  | c1 :: c2 :: c3 :: ' ' :: rest =>
    (c1 == '-' || c1 == '+') && (c2 == '-' || c2 == '+') &&
      (c3 == '-' || c3 == '+') && rest ≠ []
  | _ => false

/-- Maximal leading run of decimal digits (`\d+` with greedy semantics). -/
def spanDigits : List Char → List Char × List Char
  | [] => ([], [])
  | c :: rest =>
    if c.isDigit then
      let (a, b) := spanDigits rest
      (c :: a, b)
    else ([], c :: rest)

/-- The `(\d+),?(\d+)?` section of the hunk-header regex, with leftmost-first
(greedy) semantics: required digit group, optional comma, optional digit
group.  Backtracking cannot produce any other split, since giving digits
back from either group makes the following literal `' '` face a digit. -/
def matchNumPart (cs : List Char) : Option (List Char × List Char × List Char) :=
  let (d1, r1) := spanDigits cs
  if d1 = [] then none
  else
    match r1 with
    | ',' :: r2 =>
      let (d2, r3) := spanDigits r2
      some (d1, d2, r3)
    | _ => some (d1, [], r1)

/-- One anchored attempt of Go's
`regexp.MustCompile(`@@ \-(\d+),?(\d+)? \+(\d+),?(\d+)? @@ ?(.+)?`)`
at the head of `cs`, returning the five capture groups (an empty list for
an unmatched optional group, exactly as Go reports `""`).  The trailing
` ?(.+)?` is greedy: one space is consumed when present, and the heading
group takes the whole remainder when non-empty. -/
def matchHunkAt (cs : List Char) : Option (List Char × List Char × List Char × List Char × List Char) :=
  match cs with
  | '@' :: '@' :: ' ' :: '-' :: r0 =>
    match matchNumPart r0 with
    | none => none
    | some (g1, g2, r1) =>
      match r1 with
      | ' ' :: '+' :: r2 =>
        match matchNumPart r2 with
        | none => none
        | some (g3, g4, r3) =>
          match r3 with
          | ' ' :: '@' :: '@' :: r4 =>
            let g5 := match r4 with
              | ' ' :: t => t
              | t => t
            some (g1, g2, g3, g4, g5)
          | _ => none
      | _ => none
  | _ => none

/-- Model of `FindStringSubmatch`: the leftmost position at which the anchored
attempt succeeds (the attempt itself is deterministic, see above). -/
def findHunkMatch : List Char → Option (List Char × List Char × List Char × List Char × List Char)
  | [] => none
  | c :: rest =>
    match matchHunkAt (c :: rest) with
    | some g => some g
    | none => findHunkMatch rest

/-! ## The parser -/

/-- Function `isSourceLine` from the source. -/
def isSourceLine (line : String) : Bool :=
  if line = "\\ No newline at end of file" then false
  else
    match line.data with
    | [] => false
    | c1 :: c2 :: c3 :: _ =>
      if (c1 = '-' ∧ c2 = '-' ∧ c3 = '-') ∨ (c1 = '+' ∧ c2 = '+' ∧ c3 = '+') then false
      else true
    | _ => true

/-- Function `lineMode` from the source.  The source indexes `line[:1]`; every call
site guards with `isSourceLine`, which rejects the empty line, so the
`none` result on `[]` is unreachable from `Parse`. -/
def lineMode (line : String) : Option DiffLineMode :=
  match line.data.head? with
  | some ' ' => some DiffLineMode.UNCHANGED
  | some '+' => some DiffLineMode.ADDED
  | some '-' => some DiffLineMode.REMOVED
  | _ => none

/-- Replace the last element of a list in place (the functional rendering of
mutating through a pointer to the last appended element). -/
def updateLast (f : α → α) : List α → List α
  | [] => []
  | [x] => [f x]
  | x :: y :: rest => x :: updateLast f (y :: rest)

/-- The local parser state of `Parse`.  `files` is `diff.Files` built so
far; the `file` pointer of the source is the last element of `files` (nil
iff `files = []`), and the `hunk` pointer is the last hunk of that file. -/
structure ParseState where
  files : List DiffFile
  ADDEDCount : Nat
  REMOVEDCount : Nat
  inHunk : Bool
  diffPosCount : Nat
  firstHunkInFile : Bool
deriving DecidableEq, Repr

def initState : ParseState :=
  { files := []
    ADDEDCount := 0
    REMOVEDCount := 0
    inHunk := false
    diffPosCount := 0
    firstHunkInFile := false }

/-- Result of processing one line: continue with a new state, return an
error (Go `return nil, err`), or dereference a nil pointer (Go panic). -/
inductive StepResult where
  | next (s : ParseState)
  | fail (msg : String)
  | crash
deriving DecidableEq, Repr

/-- The `diff `-line header absorption (source lines 190–205): only when at
least three lines follow (`len(lines) > idx+3`), the first following line
is appended if it matches `^index .+$`, and the second and third following
lines are appended if both match `^(-|\+){3} .+$`. -/
def buildHeader (l : String) (rest : List String) : String :=
  match rest with
  | i :: m1 :: m2 :: _ =>
    let h := if matchIndexLine i then l ++ "\n" ++ i else l
    if matchMarkerLine m1 && matchMarkerLine m2 then h ++ "\n" ++ m1 ++ "\n" ++ m2
    else h
  | _ => l

/-- Filename extraction from a `diff ` line (source lines 180–188). -/
def parseFileNames (l : String) (f : DiffFile) : DiffFile :=
  let fields := goFields l
  if fields.length ≥ 3 then
    let fr := fields.getD (fields.length - 2) ""
    let tn := fields.getD (fields.length - 1) ""
    let f1 := if strHasPref fr "a/" then { f with OrigName := String.mk (fr.data.drop 2) } else f
    if strHasPref tn "b/" then { f1 with NewName := String.mk (tn.data.drop 2) } else f1
  else f

/-- Update the current (= last) hunk of the current (= last) file. -/
def updateLastHunk (g : DiffHunk → DiffHunk) (s : ParseState) : ParseState :=
  { s with files := updateLast (fun fl => { fl with Hunks := updateLast g fl.Hunks }) s.files }

/-- One iteration of the `for idx, l := range lines` loop of `Parse`.
`rest` is the list of lines after `l` (used for the header lookahead).
`diffPosCount++` happens before the switch, for every line. -/
def processLine (s0 : ParseState) (l : String) (rest : List String) : StepResult :=
  let s := { s0 with diffPosCount := s0.diffPosCount + 1 }
  if strHasPref l "diff " then
    let f0 : DiffFile :=
      { DiffHeader := "", Mode := FileMode.MODIFIED, OrigName := "", NewName := "", Hunks := [] }
    let f1 := parseFileNames l f0
    let f2 := { f1 with DiffHeader := buildHeader l rest }
    StepResult.next { s with inHunk := false, firstHunkInFile := true, files := s.files ++ [f2] }
  else if strHasPref l "deleted file " then
    if s.files = [] then StepResult.crash
    else StepResult.next
      { s with files := updateLast (fun fl => { fl with Mode := FileMode.DELETED }) s.files }
  else if strHasPref l "new file " then
    if s.files = [] then StepResult.crash
    else StepResult.next
      { s with files := updateLast (fun fl => { fl with Mode := FileMode.NEW }) s.files }
  else if strHasPref l "rename " then
    if s.files = [] then StepResult.crash
    else StepResult.next
      { s with files := updateLast (fun fl => { fl with Mode := FileMode.RENAMED }) s.files }
  else if strHasPref l "@@ " then
    -- `file.Hunks = append(file.Hunks, hunk)` dereferences the nil pointer
    -- when no `diff ` line has been seen, before the header is parsed.  In
    -- the source the position-counter reset (`if firstHunkInFile`) precedes
    -- the dereference and the regex, but the reset touches only
    -- `diffPosCount`/`firstHunkInFile`, so the reordering is unobservable;
    -- `firstHunkInFile` is false after this case either way.
    if s.files = [] then StepResult.crash
    else
      match findHunkMatch l.data with
      | none =>
        -- The source appends an empty hunk before parsing the header; on
        -- failure the returned error discards the state, so the append is
        -- not observable and the filled hunk is appended directly below.
        StepResult.fail ("Error parsing line: " ++ l)
      | some (g1, g2, g3, g4, g5) =>
        match hunkNums g1 g2 g3 g4 with
        | Except.error e => StepResult.fail e
        | Except.ok (a, b, c, d) =>
          let nh : DiffHunk :=
            { HunkHeader := if g5 ≠ [] then String.mk g5 else ""
              OrigRange := { Start := a, Length := b, Lines := [] }
              NewRange := { Start := c, Length := d, Lines := [] }
              WholeRange := { Start := 0, Length := 0, Lines := [] } }
          StepResult.next
            { s with
                inHunk := true
                files := updateLast (fun fl => { fl with Hunks := fl.Hunks ++ [nh] }) s.files
                ADDEDCount := c
                REMOVEDCount := a
                diffPosCount := if s.firstHunkInFile then 0 else s.diffPosCount
                firstHunkInFile := false }
  else if s.inHunk && isSourceLine l then
    match lineMode l with
    | none => StepResult.fail ("could not parse line mode for line: \"" ++ l ++ "\"")
    | some m =>
      let content := String.mk (l.data.drop 1)
      match m with
      | DiffLineMode.ADDED =>
        let nl : DiffLine :=
          { Mode := DiffLineMode.ADDED, Number := s.ADDEDCount, Content := content
            Position := s.diffPosCount }
        let s2 := updateLastHunk (fun h =>
          { h with
              NewRange := { h.NewRange with Lines := h.NewRange.Lines ++ [nl] }
              WholeRange := { h.WholeRange with Lines := h.WholeRange.Lines ++ [nl] } }) s
        StepResult.next { s2 with ADDEDCount := s.ADDEDCount + 1 }
      | DiffLineMode.REMOVED =>
        let ol : DiffLine :=
          { Mode := DiffLineMode.REMOVED, Number := s.REMOVEDCount, Content := content
            Position := s.diffPosCount }
        let s2 := updateLastHunk (fun h =>
          { h with
              OrigRange := { h.OrigRange with Lines := h.OrigRange.Lines ++ [ol] }
              WholeRange := { h.WholeRange with Lines := h.WholeRange.Lines ++ [ol] } }) s
        StepResult.next { s2 with REMOVEDCount := s.REMOVEDCount + 1 }
      | DiffLineMode.UNCHANGED =>
        let nl : DiffLine :=
          { Mode := DiffLineMode.UNCHANGED, Number := s.ADDEDCount, Content := content
            Position := s.diffPosCount }
        let ol : DiffLine :=
          { Mode := DiffLineMode.UNCHANGED, Number := s.REMOVEDCount, Content := content
            Position := s.diffPosCount }
        let s2 := updateLastHunk (fun h =>
          { h with
              NewRange := { h.NewRange with Lines := h.NewRange.Lines ++ [nl] }
              WholeRange := { h.WholeRange with Lines := h.WholeRange.Lines ++ [nl] }
              OrigRange := { h.OrigRange with Lines := h.OrigRange.Lines ++ [ol] } }) s
        StepResult.next { s2 with ADDEDCount := s.ADDEDCount + 1, REMOVEDCount := s.REMOVEDCount + 1 }
  else StepResult.next s

/-- Result of running the whole loop. -/
inductive RunResult where
  | done (s : ParseState)
  | fail (msg : String)
  | crash
deriving DecidableEq, Repr

/-- The `for` loop of `Parse` over the remaining lines. -/
def runLines (s : ParseState) : List String → RunResult
  | [] => RunResult.done s
  | l :: rest =>
    match processLine s l rest with
    | StepResult.next s' => runLines s' rest
    | StepResult.fail m => RunResult.fail m
    | StepResult.crash => RunResult.crash

/-- The observable outcome of `Parse`: a `Diff`, an `error`, or a runtime
panic from dereferencing the nil `file` pointer. -/
inductive ParseOutcome where
  | ok (d : Diff)
  | error (msg : String)
  | nilPanic
deriving DecidableEq, Repr

/-- Function `Parse` from the source. -/
def Parse (diffString : String) : ParseOutcome :=
  match runLines initState (splitLines diffString) with
  | RunResult.done s => ParseOutcome.ok { Files := s.files, Raw := diffString }
  | RunResult.fail m => ParseOutcome.error m
  | RunResult.crash => ParseOutcome.nilPanic

/-! ## `Changed` -/

/-- Model of `dFiles[k] = append(dFiles[k], n)` on the accumulated map, rendered as
an association list in first-insertion order (Go's map iteration order is
unspecified; no property below depends on entry order). -/
def mapAppend (m : List (String × List Nat)) (k : String) (n : Nat) : List (String × List Nat) :=
  match m with
  | [] => [(k, [n])]
  | (k', v) :: rest => if k' = k then (k', v ++ [n]) :: rest else (k', v) :: mapAppend rest k n

/-- Body of the innermost loop of `Changed` (over the new-range lines of a
hunk of a file whose new path is `nm`). -/
def changedLine (nm : String) (m : List (String × List Nat)) (dl : DiffLine) :
    List (String × List Nat) :=
  if dl.Mode = DiffLineMode.ADDED then mapAppend m nm dl.Number else m

/-- Body of the middle loop of `Changed` (over the hunks of a file). -/
def changedHunk (nm : String) (m : List (String × List Nat)) (h : DiffHunk) :
    List (String × List Nat) :=
  h.NewRange.Lines.foldl (changedLine nm) m

/-- Body of the outer loop of `Changed` (over the files of the diff). -/
def changedFile (m : List (String × List Nat)) (f : DiffFile) :
    List (String × List Nat) :=
  if f.Mode = FileMode.DELETED then m
  else f.Hunks.foldl (changedHunk f.NewName) m

/-- Function `Changed` from the source. -/
def Changed (d : Diff) : List (String × List Nat) :=
  d.Files.foldl changedFile []

/-! ## Observation helpers used by the statements -/

def isOkOutcome : ParseOutcome → Bool
  | ParseOutcome.ok _ => true
  | _ => false

def outFiles : ParseOutcome → List DiffFile
  | ParseOutcome.ok d => d.Files
  | _ => []

def changedOf : ParseOutcome → List (String × List Nat)
  | ParseOutcome.ok d => Changed d
  | _ => []

def nextState : StepResult → Option ParseState
  | StepResult.next s => some s
  | _ => none

def isFailStep : StepResult → Bool
  | StepResult.fail _ => true
  | _ => false

/-- A hunk-start line on which the source's header parsing errors out:
either the regex does not match, or one of the `strconv.Atoi` calls on its
numeric groups fails. -/
def badHunkLine (l : String) : Bool :=
  strHasPref l "@@ " &&
    match findHunkMatch l.data with
    | none => true
    | some (g1, g2, g3, g4, _) => !(exceptIsOk (hunkNums g1 g2 g3 g4))

def doneState : RunResult → Option ParseState
  | RunResult.done s => some s
  | _ => none

/-- Header of the first file of a completed run, when any. -/
def firstHeaderOf (r : RunResult) : Option String :=
  (doneState r).bind (fun s => (s.files.head?).map DiffFile.DiffHeader)

def runOk : RunResult → Bool
  | RunResult.done _ => true
  | _ => false

def lastFile (s : ParseState) : Option DiffFile :=
  s.files.getLast?

def lastHunk (s : ParseState) : Option DiffHunk :=
  match s.files.getLast? with
  | some fl => fl.Hunks.getLast?
  | none => none

/-- Go map lookup with the zero value `[]` for a missing key. -/
def lookupD : List (String × List Nat) → String → List Nat
  | [], _ => []
  | (k', v) :: rest, k => if k' = k then v else lookupD rest k

/-- The line numbers of the `ADDED` lines of a list of diff lines, in
order. -/
def addedOfLines (ls : List DiffLine) : List Nat :=
  (ls.filter (fun dl => dl.Mode = DiffLineMode.ADDED)).map (fun dl => dl.Number)

/-- The line numbers of the `ADDED` lines of the hunks' new ranges of a
file, in hunk order and line order. -/
def addedNumbers (f : DiffFile) : List Nat :=
  (f.Hunks.map (fun h => addedOfLines h.NewRange.Lines)).flatten

/-- Number of lines of a given mode in a list of diff lines. -/
def countMode (m : DiffLineMode) (ls : List DiffLine) : Nat :=
  (ls.filter (fun dl => dl.Mode = m)).length

/-- Placeholder file used only to state list indexing in closed
statements. -/
def dummyFile : DiffFile :=
  { DiffHeader := "", Mode := FileMode.MODIFIED, OrigName := "", NewName := "", Hunks := [] }

/-- Placeholder hunk used only to state list indexing in closed
statements. -/
def dummyHunk : DiffHunk :=
  { HunkHeader := ""
    OrigRange := { Start := 0, Length := 0, Lines := [] }
    NewRange := { Start := 0, Length := 0, Lines := [] }
    WholeRange := { Start := 0, Length := 0, Lines := [] } }

/-! ## Statement-side definitions -/

/-- Header absorption as the amended claim words it: absorption happens
only when at least three lines follow the `diff ` line; the `index` check
looks at the first following line, and the `---`/`+++` marker-pair check
always at the second and third following lines, regardless of whether the
`index` line matched; lines that do not match are omitted without failing
the parse. -/
def headerAmended (l : String) (rest : List String) : String :=
  if rest.length < 3 then l
  else
    let withIndex := if matchIndexLine (rest.getD 0 "") then l ++ "\n" ++ rest.getD 0 "" else l
    if matchMarkerLine (rest.getD 1 "") ∧ matchMarkerLine (rest.getD 2 "") then
      withIndex ++ "\n" ++ rest.getD 1 "" ++ "\n" ++ rest.getD 2 ""
    else withIndex

/-- The hunk-header line `@@ -A,B +C,D @@ heading` built from explicit
digit runs and a heading. -/
def mkHunkLine (da db dc dd hd : List Char) : String :=
  String.mk ('@' :: '@' :: ' ' :: '-' ::
    (da ++ ',' :: (db ++ ' ' :: '+' :: (dc ++ ',' :: (dd ++ ' ' :: '@' :: '@' :: ' ' :: hd)))))

/-- The hunk-header line `@@ -A +C @@` with both lengths and the heading
omitted. -/
def mkHunkShort (da dc : List Char) : String :=
  String.mk ('@' :: '@' :: ' ' :: '-' :: (da ++ ' ' :: '+' :: (dc ++ [' ', '@', '@'])))

/-- Concrete modified file used by the `Changed` witness: added lines 5
and 6 under new path `x.txt` (Scenario E). -/
def c8xFile : DiffFile :=
  { DiffHeader := ""
    Mode := FileMode.MODIFIED
    OrigName := "x.txt"
    NewName := "x.txt"
    Hunks := [
      { HunkHeader := ""
        OrigRange := { Start := 4, Length := 1, Lines := [] }
        NewRange :=
          { Start := 5
            Length := 2
            Lines := [
              { Mode := DiffLineMode.ADDED, Number := 5, Content := "a", Position := 1 },
              { Mode := DiffLineMode.ADDED, Number := 6, Content := "b", Position := 2 }] }
        WholeRange := { Start := 0, Length := 0, Lines := [] } }] }

/-- Concrete deleted file used by the `Changed` witness: it contains an
added line which `Changed` must nevertheless ignore. -/
def c8yFile : DiffFile :=
  { DiffHeader := ""
    Mode := FileMode.DELETED
    OrigName := "y"
    NewName := "y"
    Hunks := [
      { HunkHeader := ""
        OrigRange := { Start := 1, Length := 1, Lines := [] }
        NewRange :=
          { Start := 1
            Length := 1
            Lines := [
              { Mode := DiffLineMode.ADDED, Number := 1, Content := "z", Position := 1 }] }
        WholeRange := { Start := 0, Length := 0, Lines := [] } }] }

/-- Concrete diff used by the `Changed` witness. -/
def c8diff : Diff :=
  { Files := [c8xFile, c8yFile], Raw := "" }

/-- Per-hunk range invariant maintained by the parser: the new range holds
exactly the non-`REMOVED` lines of the whole range (same values, in
order), the original range has as many lines as the whole range has
non-`ADDED` lines, and holds no `ADDED` line. -/
def hunkInv (h : DiffHunk) : Prop :=
  h.NewRange.Lines = h.WholeRange.Lines.filter (fun dl => dl.Mode ≠ DiffLineMode.REMOVED) ∧
  h.OrigRange.Lines.length =
    (h.WholeRange.Lines.filter (fun dl => dl.Mode ≠ DiffLineMode.ADDED)).length ∧
  (∀ dl ∈ h.OrigRange.Lines, dl.Mode ≠ DiffLineMode.ADDED)

/-- The per-hunk invariant, over every hunk of every file of the state. -/
def stateInv (s : ParseState) : Prop :=
  ∀ f ∈ s.files, ∀ h ∈ f.Hunks, hunkInv h

/-! ## Generic lemmas about the loop and the list updates -/

theorem updateLast_map_eq {α β : Type} (g : α → β) (f : α → α) (hgf : ∀ x, g (f x) = g x) :
    ∀ xs : List α, (updateLast f xs).map g = xs.map g
  | [] => rfl
  | [x] => by simp [updateLast, hgf]
  | x :: y :: rest => by
    show g x :: (updateLast f (y :: rest)).map g = g x :: (y :: rest).map g
    rw [updateLast_map_eq g f hgf (y :: rest)]

theorem forall_mem_updateLast {α : Type} {P : α → Prop} (f : α → α)
    (hf : ∀ x, P x → P (f x)) :
    ∀ xs : List α, (∀ x ∈ xs, P x) → ∀ x ∈ updateLast f xs, P x
  | [], _, x, hx => absurd hx (List.not_mem_nil x)
  | [y], hall, x, hx => by
    simp only [updateLast, List.mem_singleton] at hx
    exact hx ▸ hf y (hall y (List.mem_singleton_self y))
  | y :: z :: rest, hall, x, hx => by
    simp only [updateLast, List.mem_cons] at hx
    rcases hx with hx | hx
    · exact hx ▸ hall y (List.mem_cons_self y _)
    · exact forall_mem_updateLast f hf (z :: rest)
        (fun w hw => hall w (List.mem_cons_of_mem y hw)) x hx

theorem getLast?_updateLast {α : Type} (f : α → α) :
    ∀ xs : List α, (updateLast f xs).getLast? = xs.getLast?.map f
  | [] => rfl
  | [x] => rfl
  | x :: y :: rest => by
    cases rest with
    | nil => simp [updateLast]
    | cons z zs =>
      have ih := getLast?_updateLast f (y :: z :: zs)
      show (x :: updateLast f (y :: z :: zs)).getLast? = Option.map f (x :: y :: z :: zs).getLast?
      rw [show updateLast f (y :: z :: zs) = y :: updateLast f (z :: zs) from rfl]
      rw [List.getLast?_cons_cons]
      rw [show updateLast f (y :: z :: zs) = y :: updateLast f (z :: zs) from rfl] at ih
      rw [ih]
      rw [show (x :: y :: z :: zs).getLast? = (y :: z :: zs).getLast? from List.getLast?_cons_cons]

/-! ## Claim C1 -/

/-- C1: the claim demands that `Parse` returns a `Diff` or a descriptive
error on every input, in particular when a mode-refinement line or a
hunk-start line appears before any file-start line.  The code instead
dereferences the nil current-file pointer on exactly those inputs: this
theorem evaluates the model at two such failing inputs and shows the
outcome is the runtime panic, not an error value. -/
theorem C1_nil_file_crash :
    Parse "deleted file mode 100644" = ParseOutcome.nilPanic ∧
    Parse "@@ -1 +1 @@" = ParseOutcome.nilPanic := by
  exact ⟨rfl, rfl⟩

/-! ## Claim C2 -/

theorem buildHeader_eq_headerAmended (l : String) (ls : List String) :
    buildHeader l ls = headerAmended l ls := by
  match ls with
  | [] => simp [buildHeader, headerAmended]
  | [a] => simp [buildHeader, headerAmended]
  | [a, b] => simp [buildHeader, headerAmended]
  | a :: b :: c :: t =>
    simp only [buildHeader, headerAmended, List.length_cons, List.getD, List.getD_cons_zero,
      List.getD_cons_succ, Bool.and_eq_true]
    have h3 : ¬ t.length + 1 + 1 + 1 < 3 := by omega
    rw [if_neg h3]
    rfl

theorem prefix_updateLast_headers (f : DiffFile → DiffFile)
    (hf : ∀ x, (f x).DiffHeader = x.DiffHeader) (xs : List DiffFile) :
    xs.map DiffFile.DiffHeader <+: (updateLast f xs).map DiffFile.DiffHeader := by
  rw [updateLast_map_eq _ f hf xs]

theorem step_headers_pre (s : ParseState) (l : String) (rest : List String) (s' : ParseState)
    (h : processLine s l rest = StepResult.next s') :
    s.files.map DiffFile.DiffHeader <+: s'.files.map DiffFile.DiffHeader := by
  simp only [processLine] at h
  split at h
  · cases h
    simp only [List.map_append]
    exact List.prefix_append _ _
  · split at h
    · split at h
      · cases h
      · cases h
        apply prefix_updateLast_headers
        intro x
        rfl
    · split at h
      · split at h
        · cases h
        · cases h
          apply prefix_updateLast_headers
          intro x
          rfl
      · split at h
        · split at h
          · cases h
          · cases h
            apply prefix_updateLast_headers
            intro x
            rfl
        · split at h
          · split at h
            · cases h
            · split at h
              · cases h
              · split at h
                · cases h
                · cases h
                  apply prefix_updateLast_headers
                  intro x
                  rfl
          · split at h
            · split at h
              · cases h
              · split at h <;>
                · cases h
                  apply prefix_updateLast_headers
                  intro x
                  rfl
            · cases h
              exact List.prefix_refl _

theorem run_headers_pre (ls : List String) (s s' : ParseState)
    (h : runLines s ls = RunResult.done s') :
    s.files.map DiffFile.DiffHeader <+: s'.files.map DiffFile.DiffHeader := by
  induction ls generalizing s with
  | nil =>
    simp only [runLines] at h
    cases h
    exact List.prefix_refl _
  | cons l rest ih =>
    simp only [runLines] at h
    cases hp : processLine s l rest with
    | next s₁ =>
      rw [hp] at h
      exact (step_headers_pre s l rest s₁ hp).trans (ih s₁ h)
    | fail m => rw [hp] at h; cases h
    | crash => rw [hp] at h; cases h

/-- C2 counterexample: on an input where the `---`/`+++` pair immediately
follows the `diff ` line with no `index` line in between, the pair is not
absorbed into the header (the parse succeeds and the header is the bare
`diff ` line), although both lines match the marker pattern — contradicting
the claim that the pair "is still absorbed into the header". -/
theorem C2_pair_not_absorbed_cex :
    (outFiles (Parse "diff --git a/f b/f\n--- a/f\n+++ b/f\n@@ -1,1 +1,1 @@\n x")).map
        DiffFile.DiffHeader = ["diff --git a/f b/f"] ∧
    matchMarkerLine "--- a/f" = true ∧
    matchMarkerLine "+++ b/f" = true ∧
    ("diff --git a/f b/f" : String) ≠ "diff --git a/f b/f\n--- a/f\n+++ b/f" := by
  refine ⟨rfl, rfl, rfl, by decide⟩

/-- C2 (amended): for every file-start line (prefix `diff `), the header is
built from that line by absorbing following lines only when at least three
lines follow it: the first following line is appended if it matches
`^index .+$`, and the second and third following lines are appended if both
match `^(-|\+){3} .+$` — the pair positions are fixed, whether or not an
`index` line was present, so a `---`/`+++` pair immediately after the
`diff ` line without an `index` line is not absorbed; non-matching lines
are omitted without failing the parse. -/
theorem processLine_diff (s : ParseState) (l : String) (rest : List String)
    (hpre : strHasPref l "diff " = true) :
    ∃ s₁, processLine s l rest = StepResult.next s₁ ∧
      s₁.files.map DiffFile.DiffHeader =
        s.files.map DiffFile.DiffHeader ++ [buildHeader l rest] := by
  refine ⟨{ s with
      diffPosCount := s.diffPosCount + 1
      inHunk := false
      firstHunkInFile := true
      files := s.files ++ [{ parseFileNames l
          { DiffHeader := "", Mode := FileMode.MODIFIED, OrigName := "",
            NewName := "", Hunks := [] } with DiffHeader := buildHeader l rest }] }, ?_, ?_⟩
  · simp only [processLine, hpre, if_pos]
  · simp

theorem C2_header_amended (l : String) (ls : List String)
    (hpre : strHasPref l "diff " = true)
    (hok : runOk (runLines initState (l :: ls)) = true) :
    firstHeaderOf (runLines initState (l :: ls)) = some (headerAmended l ls) := by
  obtain ⟨s₁, hstep, hmap⟩ := processLine_diff initState l ls hpre
  have hrl : runLines initState (l :: ls) = runLines s₁ ls := by
    simp only [runLines, hstep]
  rw [hrl] at hok ⊢
  cases hr : runLines s₁ ls with
  | done sEnd =>
    have hpref := run_headers_pre ls s₁ sEnd hr
    rw [hmap] at hpref
    have hpref2 : [buildHeader l ls] <+: sEnd.files.map DiffFile.DiffHeader := by
      simpa [initState] using hpref
    rcases hpref2 with ⟨t, ht⟩
    have hhead : (sEnd.files.map DiffFile.DiffHeader).head? = some (buildHeader l ls) := by
      rw [← ht]
      rfl
    rw [List.head?_map] at hhead
    simp only [firstHeaderOf, doneState, Option.some_bind]
    rw [hhead, buildHeader_eq_headerAmended]
  | fail m =>
    rw [hr] at hok
    cases hok
  | crash =>
    rw [hr] at hok
    cases hok

/-- Witness for `C2_header_amended`: a concrete run where an `index` line
and the marker pair all get absorbed. -/
theorem C2_header_amended_witness :
    strHasPref "diff --git a/f b/f" "diff " = true ∧
    runOk (runLines initState
      ["diff --git a/f b/f", "index 00..11 100644", "--- a/f", "+++ b/f"]) = true ∧
    firstHeaderOf (runLines initState
      ["diff --git a/f b/f", "index 00..11 100644", "--- a/f", "+++ b/f"]) =
      some (headerAmended "diff --git a/f b/f" ["index 00..11 100644", "--- a/f", "+++ b/f"]) :=
  ⟨rfl, rfl, C2_header_amended "diff --git a/f b/f"
    ["index 00..11 100644", "--- a/f", "+++ b/f"] rfl rfl⟩

/-! ## Claim C3 -/

/-- C3 counterexample: the line `diff another` occurs inside an active
hunk, qualifies as content (non-empty, not the no-newline marker, not a
`---`/`+++` marker), and starts with `d`, which is none of ` `, `+`, `-`;
the claim says the parse must fail, but it succeeds (the line starts a new
file instead, because the `diff ` case of the switch is checked first). -/
theorem C3_diff_line_in_hunk_cex :
    isOkOutcome (Parse "diff a/x b/x\n@@ -1,1 +1,1 @@\ndiff another") = true ∧
    (doneState (runLines initState ["diff a/x b/x", "@@ -1,1 +1,1 @@"])).map
        ParseState.inHunk = some true ∧
    isSourceLine "diff another" = true ∧
    "diff another".data.head? = some 'd' ∧
    ('d' ≠ ' ' ∧ 'd' ≠ '+' ∧ 'd' ≠ '-') := by
  refine ⟨rfl, rfl, rfl, rfl, by decide⟩

/-- C3 (amended): while inside an active hunk, a line that qualifies as
content, whose first character is none of ` `, `+`, `-`, and that does not
begin with one of the five recognized prefixes `diff `, `deleted file `,
`new file `, `rename `, `@@ ` (those are handled by their own switch cases
first and do not abort the parse), makes the whole parse fail with the
structural error identifying the offending line. -/
theorem C3_unknown_mode_fails (s : ParseState) (l : String) (post : List String) (ch : Char)
    (hin : s.inHunk = true)
    (hsrc : isSourceLine l = true)
    (hhead : l.data.head? = some ch)
    (hch : ch ≠ ' ' ∧ ch ≠ '+' ∧ ch ≠ '-')
    (h1 : strHasPref l "diff " = false)
    (h2 : strHasPref l "deleted file " = false)
    (h3 : strHasPref l "new file " = false)
    (h4 : strHasPref l "rename " = false)
    (h5 : strHasPref l "@@ " = false) :
    runLines s (l :: post) =
      RunResult.fail ("could not parse line mode for line: \"" ++ l ++ "\"") := by
  have hlm : lineMode l = none := by
    unfold lineMode
    rw [hhead]
    split
    · rename_i heq
      injection heq with heq
      exact absurd heq hch.1
    · rename_i heq
      injection heq with heq
      exact absurd heq hch.2.1
    · rename_i heq
      injection heq with heq
      exact absurd heq hch.2.2
    · rfl
  have hproc : processLine s l post =
      StepResult.fail ("could not parse line mode for line: \"" ++ l ++ "\"") := by
    simp [processLine, h1, h2, h3, h4, h5, hin, hsrc, hlm]
  simp only [runLines, hproc]

/-- Witness for `C3_unknown_mode_fails` at a concrete state and line. -/
theorem C3_unknown_mode_fails_witness :
    ({ initState with inHunk := true } : ParseState).inHunk = true ∧
    isSourceLine "x y" = true ∧
    "x y".data.head? = some 'x' ∧
    ('x' ≠ ' ' ∧ 'x' ≠ '+' ∧ 'x' ≠ '-') ∧
    runLines { initState with inHunk := true } ["x y"] =
      RunResult.fail ("could not parse line mode for line: \"" ++ "x y" ++ "\"") :=
  ⟨rfl, rfl, rfl, by decide,
    C3_unknown_mode_fails { initState with inHunk := true } "x y" [] 'x'
      rfl rfl rfl (by decide) rfl rfl rfl rfl rfl⟩

/-! ## Claim C5 -/

theorem pref_at_excl (l : String) (h : strHasPref l "@@ " = true) :
    strHasPref l "diff " = false ∧ strHasPref l "deleted file " = false ∧
    strHasPref l "new file " = false ∧ strHasPref l "rename " = false := by
  obtain ⟨u, hu⟩ : ∃ u, l.data = '@' :: '@' :: ' ' :: u := by
    rcases List.isPrefixOf_iff_prefix.mp h with ⟨u, hu⟩
    exact ⟨u, by simpa using hu.symm⟩
  refine ⟨?_, ?_, ?_, ?_⟩ <;> simp [strHasPref, hu, List.isPrefixOf]

theorem processLine_bad_hunk (s : ParseState) (l : String) (rest : List String)
    (hpre : strHasPref l "@@ " = true) (hnone : findHunkMatch l.data = none) :
    processLine s l rest = (if s.files = [] then StepResult.crash
      else StepResult.fail ("Error parsing line: " ++ l)) := by
  obtain ⟨h1, h2, h3, h4⟩ := pref_at_excl l hpre
  simp [processLine, h1, h2, h3, h4, hpre, hnone]

theorem processLine_bad_not_next (s : ParseState) (l : String) (rest : List String)
    (hbad : badHunkLine l = true) (s' : ParseState) :
    processLine s l rest ≠ StepResult.next s' := by
  unfold badHunkLine at hbad
  rw [Bool.and_eq_true] at hbad
  obtain ⟨hpre, hmatch⟩ := hbad
  obtain ⟨h1, h2, h3, h4⟩ := pref_at_excl l hpre
  intro hnext
  cases hfm : findHunkMatch l.data with
  | none =>
    rw [processLine_bad_hunk s l rest hpre hfm] at hnext
    by_cases hf : s.files = []
    · rw [if_pos hf] at hnext
      cases hnext
    · rw [if_neg hf] at hnext
      cases hnext
  | some g =>
    obtain ⟨g1, g2, g3, g4, g5⟩ := g
    rw [hfm] at hmatch
    have hok : exceptIsOk (hunkNums g1 g2 g3 g4) = false := by
      simpa using hmatch
    cases he : hunkNums g1 g2 g3 g4 with
    | error e =>
      by_cases hf : s.files = []
      · simp [processLine, h1, h2, h3, h4, hpre, hf] at hnext
      · simp [processLine, h1, h2, h3, h4, hpre, hf, hfm, he] at hnext
    | ok v =>
      rw [he] at hok
      simp [exceptIsOk] at hok

theorem run_bad_hunk_not_ok (ls : List String) (s : ParseState) (l : String)
    (hmem : l ∈ ls) (hbad : badHunkLine l = true) :
    runOk (runLines s ls) = false := by
  induction ls generalizing s with
  | nil => exact absurd hmem (List.not_mem_nil l)
  | cons l0 rest ih =>
    rcases List.mem_cons.mp hmem with heq | hmem'
    · subst heq
      simp only [runLines]
      cases hp : processLine s l rest with
      | next s₁ => exact absurd hp (processLine_bad_not_next s l rest hbad s₁)
      | fail m => rfl
      | crash => rfl
    · simp only [runLines]
      cases hp : processLine s l0 rest with
      | next s₁ => exact ih s₁ hmem'
      | fail m => rfl
      | crash => rfl

/-- C5 counterexample: for the input consisting of the single malformed
hunk-start line `@@ bad @@`, the code does not fail with a structural
error — it dereferences the nil current-file pointer and panics. -/
theorem C5_bad_hunk_cex :
    Parse "@@ bad @@" = ParseOutcome.nilPanic ∧
    strHasPref "@@ bad @@" "@@ " = true ∧
    findHunkMatch "@@ bad @@".data = none := by
  refine ⟨rfl, rfl, rfl⟩

/-- C5 (amended): a hunk-start line whose remainder fails the required
pattern, or whose numeric groups are not valid Go integers (a
`strconv.Atoi` call fails on them — for the digit runs the regex produces
this means overflowing Go's 64-bit `int`), never yields a `Diff`: when a
file-start line has been seen, a pattern failure makes the parse fail
immediately with the structural `Error parsing line` error and a numeric
failure with the propagated `Atoi` error; when no file-start line
preceded, the code crashes on the nil current file instead of returning
an error. -/
theorem C5_malformed_hunk :
    (∀ (s : ParseState) (l : String) (rest : List String),
        s.files ≠ [] → strHasPref l "@@ " = true → findHunkMatch l.data = none →
        processLine s l rest = StepResult.fail ("Error parsing line: " ++ l)) ∧
    (∀ (s : ParseState) (l : String) (rest : List String) (g1 g2 g3 g4 g5 : List Char),
        s.files ≠ [] → strHasPref l "@@ " = true →
        findHunkMatch l.data = some (g1, g2, g3, g4, g5) →
        exceptIsOk (hunkNums g1 g2 g3 g4) = false →
        isFailStep (processLine s l rest) = true) ∧
    (∀ (ls : List String) (l : String), l ∈ ls → badHunkLine l = true →
        runOk (runLines initState ls) = false) := by
  refine ⟨?_, ?_, ?_⟩
  · intro s l rest hne hpre hnone
    rw [processLine_bad_hunk s l rest hpre hnone, if_neg hne]
  · intro s l rest g1 g2 g3 g4 g5 hne hpre hfind hbad
    obtain ⟨h1, h2, h3, h4⟩ := pref_at_excl l hpre
    cases he : hunkNums g1 g2 g3 g4 with
    | error e => simp [processLine, h1, h2, h3, h4, hpre, hne, hfind, he, isFailStep]
    | ok v =>
      rw [he] at hbad
      simp [exceptIsOk] at hbad
  · intro ls l hmem hbad
    exact run_bad_hunk_not_ok ls initState l hmem hbad

/-- Witness for `C5_malformed_hunk`: a pattern-mismatch line, an
`Atoi`-overflow line (twenty-digit start), and a whole run containing a
bad line. -/
theorem C5_malformed_hunk_witness :
    ([dummyFile] : List DiffFile) ≠ [] ∧
    strHasPref "@@ bad @@" "@@ " = true ∧
    findHunkMatch "@@ bad @@".data = none ∧
    processLine { initState with files := [dummyFile] } "@@ bad @@" [] =
      StepResult.fail ("Error parsing line: " ++ "@@ bad @@") ∧
    strHasPref "@@ -99999999999999999999 +1 @@" "@@ " = true ∧
    findHunkMatch "@@ -99999999999999999999 +1 @@".data =
      some (List.replicate 20 '9', [], ['1'], [], []) ∧
    exceptIsOk (hunkNums (List.replicate 20 '9') [] ['1'] []) = false ∧
    isFailStep (processLine { initState with files := [dummyFile] }
      "@@ -99999999999999999999 +1 @@" []) = true ∧
    ("@@ bad @@" ∈ ["diff a/x b/x", "@@ bad @@"]) ∧
    badHunkLine "@@ bad @@" = true ∧
    runOk (runLines initState ["diff a/x b/x", "@@ bad @@"]) = false :=
  ⟨by decide, rfl, rfl,
    C5_malformed_hunk.1 { initState with files := [dummyFile] } "@@ bad @@" []
      (by decide) rfl rfl,
    rfl, by decide, by decide,
    C5_malformed_hunk.2.1 { initState with files := [dummyFile] }
      "@@ -99999999999999999999 +1 @@" [] (List.replicate 20 '9') [] ['1'] [] []
      (by decide) rfl (by decide) (by decide),
    by decide, by decide,
    C5_malformed_hunk.2.2 ["diff a/x b/x", "@@ bad @@"] "@@ bad @@" (by decide) (by decide)⟩

/-! ## Claim C4 -/

theorem spanDigits_append (da rest : List Char)
    (hda : ∀ c ∈ da, c.isDigit = true)
    (hrest : ∀ c, rest.head? = some c → c.isDigit = false) :
    spanDigits (da ++ rest) = (da, rest) := by
  induction da with
  | nil =>
    cases rest with
    | nil => rfl
    | cons c t =>
      have hc := hrest c rfl
      simp [spanDigits, hc]
  | cons c t ih =>
    have hc := hda c (List.mem_cons_self c t)
    have ih2 := ih (fun x hx => hda x (List.mem_cons_of_mem c hx))
    simp [spanDigits, hc, ih2]

theorem matchNumPart_space (da r : List Char)
    (hda1 : da ≠ []) (hda2 : ∀ c ∈ da, c.isDigit = true) :
    matchNumPart (da ++ ' ' :: r) = some (da, [], ' ' :: r) := by
  have h1 : spanDigits (da ++ ' ' :: r) = (da, ' ' :: r) :=
    spanDigits_append da (' ' :: r) hda2
      (fun c hc => by injection hc with h; subst h; rfl)
  simp [matchNumPart, h1, hda1]

theorem matchNumPart_comma (da db r : List Char)
    (hda1 : da ≠ []) (hda2 : ∀ c ∈ da, c.isDigit = true)
    (hdb : ∀ c ∈ db, c.isDigit = true) :
    matchNumPart (da ++ ',' :: (db ++ ' ' :: r)) = some (da, db, ' ' :: r) := by
  have h1 : spanDigits (da ++ ',' :: (db ++ ' ' :: r)) = (da, ',' :: (db ++ ' ' :: r)) :=
    spanDigits_append da (',' :: (db ++ ' ' :: r)) hda2
      (fun c hc => by injection hc with h; subst h; rfl)
  have h2 : spanDigits (db ++ ' ' :: r) = (db, ' ' :: r) :=
    spanDigits_append db (' ' :: r) hdb
      (fun c hc => by injection hc with h; subst h; rfl)
  simp [matchNumPart, h1, h2, hda1]

theorem matchHunkAt_full (da db dc dd hd : List Char)
    (hda1 : da ≠ []) (hda2 : ∀ c ∈ da, c.isDigit = true)
    (hdb : ∀ c ∈ db, c.isDigit = true)
    (hdc1 : dc ≠ []) (hdc2 : ∀ c ∈ dc, c.isDigit = true)
    (hdd : ∀ c ∈ dd, c.isDigit = true) :
    matchHunkAt (mkHunkLine da db dc dd hd).data = some (da, db, dc, dd, hd) := by
  show matchHunkAt ('@' :: '@' :: ' ' :: '-' ::
    (da ++ ',' :: (db ++ ' ' :: '+' :: (dc ++ ',' :: (dd ++ ' ' :: '@' :: '@' :: ' ' :: hd))))) = _
  simp [matchHunkAt,
    matchNumPart_comma da db ('+' :: (dc ++ ',' :: (dd ++ ' ' :: '@' :: '@' :: ' ' :: hd)))
      hda1 hda2 hdb,
    matchNumPart_comma dc dd ('@' :: '@' :: ' ' :: hd) hdc1 hdc2 hdd]

theorem matchHunkAt_short (da dc : List Char)
    (hda1 : da ≠ []) (hda2 : ∀ c ∈ da, c.isDigit = true)
    (hdc1 : dc ≠ []) (hdc2 : ∀ c ∈ dc, c.isDigit = true) :
    matchHunkAt (mkHunkShort da dc).data = some (da, [], dc, [], []) := by
  show matchHunkAt ('@' :: '@' :: ' ' :: '-' ::
    (da ++ ' ' :: '+' :: (dc ++ [' ', '@', '@']))) = _
  simp [matchHunkAt,
    matchNumPart_space da ('+' :: (dc ++ [' ', '@', '@'])) hda1 hda2,
    matchNumPart_space dc ['@', '@'] hdc1 hdc2]

theorem findHunkMatch_of_head (cs : List Char)
    (g : List Char × List Char × List Char × List Char × List Char)
    (h : matchHunkAt cs = some g) : findHunkMatch cs = some g := by
  cases cs with
  | nil => simp [matchHunkAt] at h
  | cons c rest => simp [findHunkMatch, h]

theorem hunkNums_ok (g1 g2 g3 g4 : List Char)
    (hb1 : natOfDigits g1 ≤ 9223372036854775807)
    (hb2 : natOfDigits g2 ≤ 9223372036854775807)
    (hb3 : natOfDigits g3 ≤ 9223372036854775807)
    (hb4 : natOfDigits g4 ≤ 9223372036854775807) :
    hunkNums g1 g2 g3 g4 = Except.ok
      (natOfDigits g1,
        (if g2 ≠ [] then natOfDigits g2 else natOfDigits g1),
        natOfDigits g3,
        (if g4 ≠ [] then natOfDigits g4 else natOfDigits g3)) := by
  unfold hunkNums goAtoi
  by_cases h2 : g2 = [] <;> by_cases h4 : g4 = [] <;>
    simp [h2, h4, hb1, hb2, hb3, hb4]

theorem processLine_hunk_groups (s : ParseState) (l : String) (rest : List String)
    (hne : s.files ≠ []) (hpre : strHasPref l "@@ " = true)
    (g1 g2 g3 g4 g5 : List Char)
    (hfind : findHunkMatch l.data = some (g1, g2, g3, g4, g5))
    (hb1 : natOfDigits g1 ≤ 9223372036854775807)
    (hb2 : natOfDigits g2 ≤ 9223372036854775807)
    (hb3 : natOfDigits g3 ≤ 9223372036854775807)
    (hb4 : natOfDigits g4 ≤ 9223372036854775807) :
    (nextState (processLine s l rest)).bind lastHunk = some
        { HunkHeader := if g5 ≠ [] then String.mk g5 else ""
          OrigRange := { Start := natOfDigits g1
                         Length := if g2 ≠ [] then natOfDigits g2 else natOfDigits g1
                         Lines := [] }
          NewRange := { Start := natOfDigits g3
                        Length := if g4 ≠ [] then natOfDigits g4 else natOfDigits g3
                        Lines := [] }
          WholeRange := { Start := 0, Length := 0, Lines := [] } } ∧
      (nextState (processLine s l rest)).map ParseState.ADDEDCount = some (natOfDigits g3) ∧
      (nextState (processLine s l rest)).map ParseState.REMOVEDCount = some (natOfDigits g1) := by
  obtain ⟨h1, h2, h3, h4⟩ := pref_at_excl l hpre
  have hstep : processLine s l rest = StepResult.next
      { files := updateLast (fun fl => { fl with Hunks := fl.Hunks ++
            [{ HunkHeader := if g5 ≠ [] then String.mk g5 else ""
               OrigRange := { Start := natOfDigits g1
                              Length := if g2 ≠ [] then natOfDigits g2 else natOfDigits g1
                              Lines := [] }
               NewRange := { Start := natOfDigits g3
                             Length := if g4 ≠ [] then natOfDigits g4 else natOfDigits g3
                             Lines := [] }
               WholeRange := { Start := 0, Length := 0, Lines := [] } }] }) s.files
        ADDEDCount := natOfDigits g3
        REMOVEDCount := natOfDigits g1
        inHunk := true
        diffPosCount := if s.firstHunkInFile then 0 else s.diffPosCount + 1
        firstHunkInFile := false } := by
    simp [processLine, h1, h2, h3, h4, hpre, hne, hfind,
      hunkNums_ok g1 g2 g3 g4 hb1 hb2 hb3 hb4]
  rw [hstep]
  obtain ⟨fl, hfl⟩ : ∃ fl, s.files.getLast? = some fl := by
    cases hgl : s.files.getLast? with
    | none => exact absurd (List.getLast?_eq_none_iff.mp hgl) hne
    | some fl => exact ⟨fl, rfl⟩
  refine ⟨?_, rfl, rfl⟩
  simp only [nextState, Option.some_bind, lastHunk, getLast?_updateLast, hfl, Option.map_some']
  simp [List.getLast?_concat]

/-- C4: a hunk-start line of the shape `@@ -A,B +C,D @@ heading` (digit
runs `A`,`B`,`C`,`D` whose values fit Go's 64-bit `int`, so that the
`strconv.Atoi` calls succeed, and a non-empty heading) is recorded, on the
current file, as a new hunk with original range start `A` and length `B`,
new range start `C` and length `D`, the heading captured verbatim, and the
added counter reset to `C` and the removed counter to `A`; and for the
shape `@@ -A +C @@`, an omitted `B` defaults to `A`, an omitted `D`
defaults to `C`, and the heading stays empty. -/
theorem C4_hunk_header_recorded :
    (∀ (s : ParseState) (rest : List String) (da db dc dd hd : List Char),
      s.files ≠ [] →
      da ≠ [] → (∀ c ∈ da, c.isDigit = true) →
      db ≠ [] → (∀ c ∈ db, c.isDigit = true) →
      dc ≠ [] → (∀ c ∈ dc, c.isDigit = true) →
      dd ≠ [] → (∀ c ∈ dd, c.isDigit = true) →
      hd ≠ [] →
      natOfDigits da ≤ 9223372036854775807 →
      natOfDigits db ≤ 9223372036854775807 →
      natOfDigits dc ≤ 9223372036854775807 →
      natOfDigits dd ≤ 9223372036854775807 →
      ((nextState (processLine s (mkHunkLine da db dc dd hd) rest)).bind lastHunk = some
          { HunkHeader := String.mk hd
            OrigRange := { Start := natOfDigits da, Length := natOfDigits db, Lines := [] }
            NewRange := { Start := natOfDigits dc, Length := natOfDigits dd, Lines := [] }
            WholeRange := { Start := 0, Length := 0, Lines := [] } } ∧
        (nextState (processLine s (mkHunkLine da db dc dd hd) rest)).map
          ParseState.ADDEDCount = some (natOfDigits dc) ∧
        (nextState (processLine s (mkHunkLine da db dc dd hd) rest)).map
          ParseState.REMOVEDCount = some (natOfDigits da))) ∧
    (∀ (s : ParseState) (rest : List String) (da dc : List Char),
      s.files ≠ [] →
      da ≠ [] → (∀ c ∈ da, c.isDigit = true) →
      dc ≠ [] → (∀ c ∈ dc, c.isDigit = true) →
      natOfDigits da ≤ 9223372036854775807 →
      natOfDigits dc ≤ 9223372036854775807 →
      ((nextState (processLine s (mkHunkShort da dc) rest)).bind lastHunk = some
          { HunkHeader := ""
            OrigRange := { Start := natOfDigits da, Length := natOfDigits da, Lines := [] }
            NewRange := { Start := natOfDigits dc, Length := natOfDigits dc, Lines := [] }
            WholeRange := { Start := 0, Length := 0, Lines := [] } } ∧
        (nextState (processLine s (mkHunkShort da dc) rest)).map
          ParseState.ADDEDCount = some (natOfDigits dc) ∧
        (nextState (processLine s (mkHunkShort da dc) rest)).map
          ParseState.REMOVEDCount = some (natOfDigits da))) := by
  constructor
  · intro s rest da db dc dd hd hne hda1 hda2 hdb1 hdb2 hdc1 hdc2 hdd1 hdd2 hhd
    intro hba hbb hbc hbd
    have hpre : strHasPref (mkHunkLine da db dc dd hd) "@@ " = true := rfl
    have hfind : findHunkMatch (mkHunkLine da db dc dd hd).data = some (da, db, dc, dd, hd) :=
      findHunkMatch_of_head _ _ (matchHunkAt_full da db dc dd hd hda1 hda2 hdb2 hdc1 hdc2 hdd2)
    have := processLine_hunk_groups s (mkHunkLine da db dc dd hd) rest hne hpre
      da db dc dd hd hfind hba hbb hbc hbd
    rwa [if_pos hdb1, if_pos hdd1, if_pos hhd] at this
  · intro s rest da dc hne hda1 hda2 hdc1 hdc2 hba hbc
    have hpre : strHasPref (mkHunkShort da dc) "@@ " = true := rfl
    have hfind : findHunkMatch (mkHunkShort da dc).data = some (da, [], dc, [], []) :=
      findHunkMatch_of_head _ _ (matchHunkAt_short da dc hda1 hda2 hdc1 hdc2)
    have := processLine_hunk_groups s (mkHunkShort da dc) rest hne hpre
      da [] dc [] [] hfind hba (Nat.zero_le _) hbc (Nat.zero_le _)
    simpa using this

/-- Witness for `C4_hunk_header_recorded` at concrete digit runs and
heading. -/
theorem C4_hunk_header_recorded_witness :
    (({ initState with files := [dummyFile] } : ParseState).files ≠ [] ∧
      (['1'] : List Char) ≠ [] ∧ (∀ c ∈ (['1'] : List Char), c.isDigit = true) ∧
      (['2'] : List Char) ≠ [] ∧ (∀ c ∈ (['2'] : List Char), c.isDigit = true) ∧
      (['3'] : List Char) ≠ [] ∧ (∀ c ∈ (['3'] : List Char), c.isDigit = true) ∧
      (['4'] : List Char) ≠ [] ∧ (∀ c ∈ (['4'] : List Char), c.isDigit = true) ∧
      (['h', 'i'] : List Char) ≠ [] ∧
      natOfDigits ['1'] ≤ 9223372036854775807 ∧
      natOfDigits ['2'] ≤ 9223372036854775807 ∧
      natOfDigits ['3'] ≤ 9223372036854775807 ∧
      natOfDigits ['4'] ≤ 9223372036854775807) ∧
    (nextState (processLine { initState with files := [dummyFile] }
        (mkHunkLine ['1'] ['2'] ['3'] ['4'] ['h', 'i']) [])).bind lastHunk = some
      { HunkHeader := String.mk ['h', 'i']
        OrigRange := { Start := natOfDigits ['1'], Length := natOfDigits ['2'], Lines := [] }
        NewRange := { Start := natOfDigits ['3'], Length := natOfDigits ['4'], Lines := [] }
        WholeRange := { Start := 0, Length := 0, Lines := [] } } ∧
    (nextState (processLine { initState with files := [dummyFile] }
        (mkHunkShort ['1'] ['3']) [])).bind lastHunk = some
      { HunkHeader := ""
        OrigRange := { Start := natOfDigits ['1'], Length := natOfDigits ['1'], Lines := [] }
        NewRange := { Start := natOfDigits ['3'], Length := natOfDigits ['3'], Lines := [] }
        WholeRange := { Start := 0, Length := 0, Lines := [] } } :=
  ⟨⟨by decide, by decide, by decide, by decide, by decide, by decide, by decide, by decide,
      by decide, by decide, by decide, by decide, by decide, by decide⟩,
    (C4_hunk_header_recorded.1 { initState with files := [dummyFile] } []
      ['1'] ['2'] ['3'] ['4'] ['h', 'i'] (by decide) (by decide) (by decide) (by decide)
      (by decide) (by decide) (by decide) (by decide) (by decide) (by decide)
      (by decide) (by decide) (by decide) (by decide)).1,
    (C4_hunk_header_recorded.2 { initState with files := [dummyFile] } []
      ['1'] ['3'] (by decide) (by decide) (by decide) (by decide) (by decide)
      (by decide) (by decide)).1⟩

/-! ## Claims C6 and C9: the parser's range invariant -/

theorem parseFileNames_hunks (l : String) (f : DiffFile) :
    (parseFileNames l f).Hunks = f.Hunks := by
  simp only [parseFileNames]
  split
  · split <;> split <;> rfl
  · rfl

theorem hunkInv_empty (a b c d : Nat) (hh : String) :
    hunkInv { HunkHeader := hh
              OrigRange := { Start := a, Length := b, Lines := [] }
              NewRange := { Start := c, Length := d, Lines := [] }
              WholeRange := { Start := 0, Length := 0, Lines := [] } } := by
  refine ⟨rfl, rfl, ?_⟩
  intro dl hdl
  exact absurd hdl (List.not_mem_nil dl)

theorem hunkInv_added (h : DiffHunk) (nl : DiffLine) (hm : nl.Mode = DiffLineMode.ADDED)
    (hi : hunkInv h) :
    hunkInv { h with
      NewRange := { h.NewRange with Lines := h.NewRange.Lines ++ [nl] }
      WholeRange := { h.WholeRange with Lines := h.WholeRange.Lines ++ [nl] } } := by
  obtain ⟨h1, h2, h3⟩ := hi
  refine ⟨?_, ?_, h3⟩
  · simp only [List.filter_append, h1]
    simp [List.filter, hm]
  · simp only [List.filter_append]
    simp [List.filter, hm, h2]

theorem hunkInv_removed (h : DiffHunk) (ol : DiffLine) (hm : ol.Mode = DiffLineMode.REMOVED)
    (hi : hunkInv h) :
    hunkInv { h with
      OrigRange := { h.OrigRange with Lines := h.OrigRange.Lines ++ [ol] }
      WholeRange := { h.WholeRange with Lines := h.WholeRange.Lines ++ [ol] } } := by
  obtain ⟨h1, h2, h3⟩ := hi
  refine ⟨?_, ?_, ?_⟩
  · simp only [List.filter_append, h1]
    simp [List.filter, hm]
  · simp only [List.filter_append]
    simp [List.filter, hm, h2]
  · intro dl hdl
    rcases List.mem_append.mp hdl with hdl | hdl
    · exact h3 dl hdl
    · have : dl = ol := by simpa using hdl
      subst this
      rw [hm]
      exact fun hc => DiffLineMode.noConfusion hc

theorem hunkInv_unchanged (h : DiffHunk) (nl ol : DiffLine)
    (hmn : nl.Mode = DiffLineMode.UNCHANGED) (hmo : ol.Mode = DiffLineMode.UNCHANGED)
    (hi : hunkInv h) :
    hunkInv { h with
      NewRange := { h.NewRange with Lines := h.NewRange.Lines ++ [nl] }
      WholeRange := { h.WholeRange with Lines := h.WholeRange.Lines ++ [nl] }
      OrigRange := { h.OrigRange with Lines := h.OrigRange.Lines ++ [ol] } } := by
  obtain ⟨h1, h2, h3⟩ := hi
  refine ⟨?_, ?_, ?_⟩
  · simp only [List.filter_append, h1]
    simp [List.filter, hmn]
  · simp only [List.filter_append]
    simp [List.filter, hmn, h2]
  · intro dl hdl
    rcases List.mem_append.mp hdl with hdl | hdl
    · exact h3 dl hdl
    · have : dl = ol := by simpa using hdl
      subst this
      rw [hmo]
      exact fun hc => DiffLineMode.noConfusion hc

theorem stateInv_updateLastHunk (g : DiffHunk → DiffHunk) (s : ParseState)
    (hg : ∀ h, hunkInv h → hunkInv (g h)) (hs : stateInv s) :
    stateInv (updateLastHunk g s) := by
  have hs' : ∀ f ∈ s.files, ∀ hk ∈ f.Hunks, hunkInv hk := hs
  intro f hf h hh
  refine forall_mem_updateLast (P := fun fl => ∀ h ∈ fl.Hunks, hunkInv h) _ ?_ s.files hs' f hf h hh
  intro fl hfl h2 hh2
  exact forall_mem_updateLast g hg fl.Hunks hfl h2 hh2

theorem stateInv_set_mode (m : FileMode) (xs : List DiffFile)
    (hall : ∀ f ∈ xs, ∀ hk ∈ f.Hunks, hunkInv hk) :
    ∀ f ∈ updateLast (fun fl => { fl with Mode := m }) xs, ∀ hk ∈ f.Hunks, hunkInv hk := by
  refine forall_mem_updateLast (P := fun fl => ∀ hk ∈ fl.Hunks, hunkInv hk) _ ?_ xs hall
  exact fun fl hfl => hfl

theorem stateInv_append_hunk (nh : DiffHunk) (xs : List DiffFile)
    (hinv : hunkInv nh) (hall : ∀ f ∈ xs, ∀ hk ∈ f.Hunks, hunkInv hk) :
    ∀ f ∈ updateLast (fun fl => { fl with Hunks := fl.Hunks ++ [nh] }) xs,
      ∀ hk ∈ f.Hunks, hunkInv hk := by
  refine forall_mem_updateLast (P := fun fl => ∀ hk ∈ fl.Hunks, hunkInv hk) _ ?_ xs hall
  intro fl hfl hk hhk
  rcases List.mem_append.mp hhk with hhk | hhk
  · exact hfl hk hhk
  · have hk2 := List.mem_singleton.mp hhk
    subst hk2
    exact hinv

theorem step_stateInv (s : ParseState) (l : String) (rest : List String) (s' : ParseState)
    (h : processLine s l rest = StepResult.next s') (hs : stateInv s) : stateInv s' := by
  have hs' : ∀ f ∈ s.files, ∀ hk ∈ f.Hunks, hunkInv hk := hs
  simp only [processLine] at h
  split at h
  · cases h
    intro f hf h2 hh2
    rcases List.mem_append.mp hf with hf | hf
    · exact hs' f hf h2 hh2
    · have hf2 := List.mem_singleton.mp hf
      subst hf2
      simp only [parseFileNames_hunks] at hh2
      exact absurd hh2 (List.not_mem_nil h2)
  · split at h
    · split at h
      · cases h
      · cases h
        intro f hf h2 hh2
        exact stateInv_set_mode FileMode.DELETED s.files hs' f hf h2 hh2
    · split at h
      · split at h
        · cases h
        · cases h
          intro f hf h2 hh2
          exact stateInv_set_mode FileMode.NEW s.files hs' f hf h2 hh2
      · split at h
        · split at h
          · cases h
          · cases h
            intro f hf h2 hh2
            exact stateInv_set_mode FileMode.RENAMED s.files hs' f hf h2 hh2
        · split at h
          · split at h
            · cases h
            · split at h
              · cases h
              · split at h
                · cases h
                · cases h
                  intro f hf h2 hh2
                  exact stateInv_append_hunk _ s.files (hunkInv_empty _ _ _ _ _) hs'
                    f hf h2 hh2
          · split at h
            · split at h
              · cases h
              · split at h
                · cases h
                  exact stateInv_updateLastHunk _ _
                    (fun hk hik => hunkInv_added hk _ rfl hik) hs
                · cases h
                  exact stateInv_updateLastHunk _ _
                    (fun hk hik => hunkInv_removed hk _ rfl hik) hs
                · cases h
                  exact stateInv_updateLastHunk _ _
                    (fun hk hik => hunkInv_unchanged hk _ _ rfl rfl hik) hs
            · cases h
              exact hs

theorem run_stateInv (ls : List String) (s s' : ParseState)
    (h : runLines s ls = RunResult.done s') (hs : stateInv s) : stateInv s' := by
  induction ls generalizing s with
  | nil =>
    simp only [runLines] at h
    cases h
    exact hs
  | cons l rest ih =>
    simp only [runLines] at h
    cases hp : processLine s l rest with
    | next s₁ =>
      rw [hp] at h
      exact ih s₁ h (step_stateInv s l rest s₁ hp hs)
    | fail m => rw [hp] at h; cases h
    | crash => rw [hp] at h; cases h

theorem parse_hunkInv (input : String) (f : DiffFile) (hk : DiffHunk)
    (hf : f ∈ outFiles (Parse input)) (hh : hk ∈ f.Hunks) : hunkInv hk := by
  unfold Parse at hf
  cases hr : runLines initState (splitLines input) with
  | done s =>
    rw [hr] at hf
    have hs := run_stateInv (splitLines input) initState s hr
      (fun f2 hf2 => absurd hf2 (List.not_mem_nil f2))
    exact hs f hf hk hh
  | fail m =>
    rw [hr] at hf
    exact absurd hf (List.not_mem_nil f)
  | crash =>
    rw [hr] at hf
    exact absurd hf (List.not_mem_nil f)

theorem length_eq_countModes (ls : List DiffLine) :
    ls.length = countMode DiffLineMode.ADDED ls + countMode DiffLineMode.REMOVED ls +
      countMode DiffLineMode.UNCHANGED ls := by
  induction ls with
  | nil => rfl
  | cons dl t ih =>
    cases hm : dl.Mode <;> simp [countMode, List.filter_cons, hm] at ih ⊢ <;> omega

theorem filter_ne_removed_length (ls : List DiffLine) :
    (ls.filter (fun dl => dl.Mode ≠ DiffLineMode.REMOVED)).length =
      countMode DiffLineMode.ADDED ls + countMode DiffLineMode.UNCHANGED ls := by
  induction ls with
  | nil => rfl
  | cons dl t ih =>
    cases hm : dl.Mode <;> simp [countMode, List.filter_cons, hm] at ih ⊢ <;> omega

theorem filter_ne_added_length (ls : List DiffLine) :
    (ls.filter (fun dl => dl.Mode ≠ DiffLineMode.ADDED)).length =
      countMode DiffLineMode.REMOVED ls + countMode DiffLineMode.UNCHANGED ls := by
  induction ls with
  | nil => rfl
  | cons dl t ih =>
    cases hm : dl.Mode <;> simp [countMode, List.filter_cons, hm] at ih ⊢ <;> omega

/-- C6: in every hunk of every file of a successfully parsed diff, the
whole range's length is the number of added plus removed plus unchanged
lines, the new range's length is the number of added plus unchanged lines,
and the original range's length is the number of removed plus unchanged
lines (lines counted by mode over the hunk's whole range). -/
theorem C6_line_conservation (input : String) (f : DiffFile) (h : DiffHunk)
    (hf : f ∈ outFiles (Parse input)) (hh : h ∈ f.Hunks) :
    h.WholeRange.Lines.length =
        countMode DiffLineMode.ADDED h.WholeRange.Lines +
        countMode DiffLineMode.REMOVED h.WholeRange.Lines +
        countMode DiffLineMode.UNCHANGED h.WholeRange.Lines ∧
      h.NewRange.Lines.length =
        countMode DiffLineMode.ADDED h.WholeRange.Lines +
        countMode DiffLineMode.UNCHANGED h.WholeRange.Lines ∧
      h.OrigRange.Lines.length =
        countMode DiffLineMode.REMOVED h.WholeRange.Lines +
        countMode DiffLineMode.UNCHANGED h.WholeRange.Lines := by
  obtain ⟨h1, h2, _⟩ := parse_hunkInv input f h hf hh
  refine ⟨length_eq_countModes _, ?_, ?_⟩
  · rw [h1, filter_ne_removed_length]
  · rw [h2, filter_ne_added_length]

/-- Witness for `C6_line_conservation` on the hunk of Scenario A. -/
theorem C6_line_conservation_witness :
    ((outFiles (Parse "diff a/x b/x\n@@ -1,3 +1,4 @@\n a\n+b\n c\n-old")).getD 0 dummyFile ∈
      outFiles (Parse "diff a/x b/x\n@@ -1,3 +1,4 @@\n a\n+b\n c\n-old")) ∧
    (((outFiles (Parse "diff a/x b/x\n@@ -1,3 +1,4 @@\n a\n+b\n c\n-old")).getD 0
        dummyFile).Hunks.getD 0 dummyHunk ∈
      ((outFiles (Parse "diff a/x b/x\n@@ -1,3 +1,4 @@\n a\n+b\n c\n-old")).getD 0
        dummyFile).Hunks) ∧
    ((((outFiles (Parse "diff a/x b/x\n@@ -1,3 +1,4 @@\n a\n+b\n c\n-old")).getD 0
        dummyFile).Hunks.getD 0 dummyHunk).WholeRange.Lines.length =
      countMode DiffLineMode.ADDED
        ((((outFiles (Parse "diff a/x b/x\n@@ -1,3 +1,4 @@\n a\n+b\n c\n-old")).getD 0
          dummyFile).Hunks.getD 0 dummyHunk).WholeRange.Lines) +
      countMode DiffLineMode.REMOVED
        ((((outFiles (Parse "diff a/x b/x\n@@ -1,3 +1,4 @@\n a\n+b\n c\n-old")).getD 0
          dummyFile).Hunks.getD 0 dummyHunk).WholeRange.Lines) +
      countMode DiffLineMode.UNCHANGED
        ((((outFiles (Parse "diff a/x b/x\n@@ -1,3 +1,4 @@\n a\n+b\n c\n-old")).getD 0
          dummyFile).Hunks.getD 0 dummyHunk).WholeRange.Lines)) :=
  ⟨by decide, by decide,
    (C6_line_conservation "diff a/x b/x\n@@ -1,3 +1,4 @@\n a\n+b\n c\n-old"
      ((outFiles (Parse "diff a/x b/x\n@@ -1,3 +1,4 @@\n a\n+b\n c\n-old")).getD 0 dummyFile)
      (((outFiles (Parse "diff a/x b/x\n@@ -1,3 +1,4 @@\n a\n+b\n c\n-old")).getD 0
        dummyFile).Hunks.getD 0 dummyHunk)
      (by decide) (by decide)).1⟩

/-- C9 counterexample: the parser does not tie line modes to the file
mode — an input declaring a deleted file whose hunk body contains a `+`
line parses successfully into a `DELETED` file with one `ADDED` line in
its hunk's new range, contradicting the claimed invariant. -/
theorem C9_deleted_with_added_cex :
    ((outFiles (Parse "diff a/x b/x\ndeleted file mode 100644\n@@ -1,1 +1,1 @@\n+oops")).getD 0
      dummyFile).Mode = FileMode.DELETED ∧
    countMode DiffLineMode.ADDED
      ((((outFiles (Parse "diff a/x b/x\ndeleted file mode 100644\n@@ -1,1 +1,1 @@\n+oops")).getD 0
        dummyFile).Hunks.getD 0 dummyHunk).NewRange.Lines) = 1 ∧
    (1 : Nat) ≠ 0 := by
  refine ⟨rfl, rfl, by decide⟩

/-- C9 (amended): what the parser does guarantee about modes and ranges,
independently of the file's mode: no line recorded in a hunk's new range
has mode `REMOVED`, and no line recorded in a hunk's original range has
mode `ADDED`.  The file-mode-specific exclusion of the original claim does
not hold (see the counterexample). -/
theorem C9_range_mode_invariant (input : String) (f : DiffFile) (h : DiffHunk) (dl : DiffLine)
    (hf : f ∈ outFiles (Parse input)) (hh : h ∈ f.Hunks) :
    (dl ∈ h.NewRange.Lines → dl.Mode ≠ DiffLineMode.REMOVED) ∧
    (dl ∈ h.OrigRange.Lines → dl.Mode ≠ DiffLineMode.ADDED) := by
  obtain ⟨h1, _, h3⟩ := parse_hunkInv input f h hf hh
  constructor
  · intro hmem
    rw [h1] at hmem
    have hmf := List.mem_filter.mp hmem
    simpa using hmf.2
  · intro hmem
    exact h3 dl hmem

/-- Witness for `C9_range_mode_invariant` at a concrete parsed diff. -/
theorem C9_range_mode_invariant_witness :
    ((outFiles (Parse "diff a/x b/x\n@@ -1,1 +1,1 @@\n a")).getD 0 dummyFile ∈
      outFiles (Parse "diff a/x b/x\n@@ -1,1 +1,1 @@\n a")) ∧
    (((outFiles (Parse "diff a/x b/x\n@@ -1,1 +1,1 @@\n a")).getD 0 dummyFile).Hunks.getD 0
        dummyHunk ∈
      ((outFiles (Parse "diff a/x b/x\n@@ -1,1 +1,1 @@\n a")).getD 0 dummyFile).Hunks) ∧
    ((({ Mode := DiffLineMode.UNCHANGED, Number := 1, Content := "a", Position := 1 } : DiffLine) ∈
        ((((outFiles (Parse "diff a/x b/x\n@@ -1,1 +1,1 @@\n a")).getD 0
          dummyFile).Hunks.getD 0 dummyHunk)).NewRange.Lines →
      ({ Mode := DiffLineMode.UNCHANGED, Number := 1, Content := "a", Position := 1 } :
        DiffLine).Mode ≠ DiffLineMode.REMOVED) ∧
      (({ Mode := DiffLineMode.UNCHANGED, Number := 1, Content := "a", Position := 1 } :
          DiffLine) ∈
        ((((outFiles (Parse "diff a/x b/x\n@@ -1,1 +1,1 @@\n a")).getD 0
          dummyFile).Hunks.getD 0 dummyHunk)).OrigRange.Lines →
      ({ Mode := DiffLineMode.UNCHANGED, Number := 1, Content := "a", Position := 1 } :
        DiffLine).Mode ≠ DiffLineMode.ADDED)) :=
  ⟨by decide, by decide,
    C9_range_mode_invariant "diff a/x b/x\n@@ -1,1 +1,1 @@\n a"
      ((outFiles (Parse "diff a/x b/x\n@@ -1,1 +1,1 @@\n a")).getD 0 dummyFile)
      (((outFiles (Parse "diff a/x b/x\n@@ -1,1 +1,1 @@\n a")).getD 0 dummyFile).Hunks.getD 0
        dummyHunk)
      { Mode := DiffLineMode.UNCHANGED, Number := 1, Content := "a", Position := 1 }
      (by decide) (by decide)⟩

/-! ## Claim C7 -/

theorem pref_diff_not_at (l : String) (h : strHasPref l "diff " = true) :
    strHasPref l "@@ " = false := by
  rcases List.isPrefixOf_iff_prefix.mp h with ⟨u, hu⟩
  have hl : l.data = 'd' :: 'i' :: 'f' :: 'f' :: ' ' :: u := by simpa using hu.symm
  simp [strHasPref, hl, List.isPrefixOf]

theorem pref_deleted_not_at (l : String) (h : strHasPref l "deleted file " = true) :
    strHasPref l "@@ " = false := by
  rcases List.isPrefixOf_iff_prefix.mp h with ⟨u, hu⟩
  have hl : l.data =
      'd' :: 'e' :: 'l' :: 'e' :: 't' :: 'e' :: 'd' :: ' ' :: 'f' :: 'i' :: 'l' :: 'e' ::
        ' ' :: u := by
    simpa using hu.symm
  simp [strHasPref, hl, List.isPrefixOf]

theorem pref_new_not_at (l : String) (h : strHasPref l "new file " = true) :
    strHasPref l "@@ " = false := by
  rcases List.isPrefixOf_iff_prefix.mp h with ⟨u, hu⟩
  have hl : l.data = 'n' :: 'e' :: 'w' :: ' ' :: 'f' :: 'i' :: 'l' :: 'e' :: ' ' :: u := by
    simpa using hu.symm
  simp [strHasPref, hl, List.isPrefixOf]

theorem pref_rename_not_at (l : String) (h : strHasPref l "rename " = true) :
    strHasPref l "@@ " = false := by
  rcases List.isPrefixOf_iff_prefix.mp h with ⟨u, hu⟩
  have hl : l.data = 'r' :: 'e' :: 'n' :: 'a' :: 'm' :: 'e' :: ' ' :: u := by
    simpa using hu.symm
  simp [strHasPref, hl, List.isPrefixOf]

theorem step_diffPosCount (s s' : ParseState) (l : String) (rest : List String)
    (h : processLine s l rest = StepResult.next s') :
    s'.diffPosCount =
      if strHasPref l "@@ " = true ∧ s.firstHunkInFile = true then 0
      else s.diffPosCount + 1 := by
  simp only [processLine] at h
  split at h
  · rename_i hd
    cases h
    simp [pref_diff_not_at l hd]
  · split at h
    · rename_i hdel
      split at h
      · cases h
      · cases h
        simp [pref_deleted_not_at l hdel]
    · split at h
      · rename_i hnew
        split at h
        · cases h
        · cases h
          simp [pref_new_not_at l hnew]
      · split at h
        · rename_i hren
          split at h
          · cases h
          · cases h
            simp [pref_rename_not_at l hren]
        · split at h
          · rename_i hat
            split at h
            · cases h
            · split at h
              · cases h
              · split at h
                · cases h
                · cases h
                  by_cases hb : s.firstHunkInFile = true
                  · simp [hat, hb]
                  · simp [hat, hb]
          · rename_i hat
            split at h
            · split at h
              · cases h
              · split at h <;> cases h <;> simp [hat, updateLastHunk]
            · cases h
              simp [hat]

/-- C7 counterexample: the position counter counts every physical line, so
when a non-content line (here an empty line) sits between the second
file's first hunk header and its first content line, that content line
receives position 2, not 1 as the claim states for every two-file diff. -/
theorem C7_position_cex :
    (outFiles (Parse
      "diff a/x b/x\n@@ -1,1 +1,1 @@\n a\ndiff a/y b/y\n@@ -1,1 +1,1 @@\n\n b")).length = 2 ∧
    (((outFiles (Parse
        "diff a/x b/x\n@@ -1,1 +1,1 @@\n a\ndiff a/y b/y\n@@ -1,1 +1,1 @@\n\n b")).getD 1
      dummyFile).Hunks.getD 0 dummyHunk).WholeRange.Lines.map DiffLine.Position = [2] ∧
    (2 : Nat) ≠ 1 := by
  refine ⟨rfl, rfl, by decide⟩

/-- C7 (amended): the position counter is incremented once per physical
line scanned and is reset to 0 exactly when a hunk-start line is processed
with the first-hunk-in-file flag set; consequently the first content line
of the second file's first hunk receives position 1 whenever it
immediately follows that hunk's header line, independent of the first
file's positions (each non-content line in between raises the position by
one). -/
theorem C7_position_counter :
    (∀ (s s' : ParseState) (l : String) (rest : List String),
      processLine s l rest = StepResult.next s' →
      s'.diffPosCount =
        if strHasPref l "@@ " = true ∧ s.firstHunkInFile = true then 0
        else s.diffPosCount + 1) ∧
    (outFiles (Parse
      "diff a/x b/x\n@@ -1,2 +1,2 @@\n a\n b\ndiff a/y b/y\n@@ -1,1 +1,1 @@\n c")).length = 2 ∧
    (((outFiles (Parse
        "diff a/x b/x\n@@ -1,2 +1,2 @@\n a\n b\ndiff a/y b/y\n@@ -1,1 +1,1 @@\n c")).getD 1
      dummyFile).Hunks.getD 0 dummyHunk).WholeRange.Lines.map DiffLine.Position = [1] :=
  ⟨fun s s' l rest h => step_diffPosCount s s' l rest h, rfl, rfl⟩

/-- Witness for `C7_position_counter` at a concrete step. -/
theorem C7_position_counter_witness :
    processLine initState "x" [] = StepResult.next { initState with diffPosCount := 1 } ∧
    ({ initState with diffPosCount := 1 } : ParseState).diffPosCount =
      (if strHasPref "x" "@@ " = true ∧ initState.firstHunkInFile = true then 0
       else initState.diffPosCount + 1) :=
  ⟨rfl, C7_position_counter.1 initState { initState with diffPosCount := 1 } "x" [] rfl⟩

/-! ## Claim C8 -/

theorem lookupD_mapAppend (m : List (String × List Nat)) (q k : String) (n : Nat) :
    lookupD (mapAppend m q n) k = lookupD m k ++ (if q = k then [n] else []) := by
  induction m with
  | nil => by_cases h : q = k <;> simp [mapAppend, lookupD, h]
  | cons p rest ih =>
    obtain ⟨k0, v⟩ := p
    by_cases h0 : k0 = q
    · subst h0
      by_cases h1 : k0 = k
      · subst h1
        simp [mapAppend, lookupD]
      · simp [mapAppend, lookupD, h1]
    · by_cases h1 : k0 = k
      · have hqk : ¬ q = k := fun he => h0 (h1.trans he.symm)
        have hkq : ¬ k = q := fun he => hqk he.symm
        simp [mapAppend, lookupD, h0, h1, hqk, hkq]
      · simp [mapAppend, lookupD, h0, h1, ih]

theorem lookupD_changedLine (nm k : String) (m : List (String × List Nat)) (dl : DiffLine) :
    lookupD (changedLine nm m dl) k =
      lookupD m k ++ (if nm = k then addedOfLines [dl] else []) := by
  by_cases hm : dl.Mode = DiffLineMode.ADDED <;>
    by_cases hk : nm = k <;>
      simp [changedLine, addedOfLines, hm, hk, lookupD_mapAppend, List.filter]

theorem lookupD_foldLines (nm k : String) (lines : List DiffLine)
    (m : List (String × List Nat)) :
    lookupD (lines.foldl (changedLine nm) m) k =
      lookupD m k ++ (if nm = k then addedOfLines lines else []) := by
  induction lines generalizing m with
  | nil => simp [addedOfLines]
  | cons dl t ih =>
    rw [List.foldl_cons, ih, lookupD_changedLine]
    by_cases hk : nm = k <;>
      by_cases hm : dl.Mode = DiffLineMode.ADDED <;>
        simp [hk, hm, addedOfLines, List.filter_cons]

theorem lookupD_foldHunks (nm k : String) (hks : List DiffHunk)
    (m : List (String × List Nat)) :
    lookupD (hks.foldl (changedHunk nm) m) k =
      lookupD m k ++
        (if nm = k then (hks.map (fun h => addedOfLines h.NewRange.Lines)).flatten else []) := by
  induction hks generalizing m with
  | nil => simp
  | cons hk0 t ih =>
    rw [List.foldl_cons, ih]
    rw [show changedHunk nm m hk0 = hk0.NewRange.Lines.foldl (changedLine nm) m from rfl]
    rw [lookupD_foldLines]
    by_cases hk : nm = k <;> simp [hk]

theorem lookupD_changedFile (k : String) (f : DiffFile) (m : List (String × List Nat)) :
    lookupD (changedFile m f) k =
      lookupD m k ++
        (if f.Mode ≠ FileMode.DELETED ∧ f.NewName = k then addedNumbers f else []) := by
  unfold changedFile
  by_cases hd : f.Mode = FileMode.DELETED
  · simp [hd]
  · rw [if_neg hd, lookupD_foldHunks]
    by_cases hk : f.NewName = k <;> simp [hd, hk, addedNumbers]

theorem lookupD_foldFiles (k : String) (fs : List DiffFile) (m : List (String × List Nat)) :
    lookupD (fs.foldl changedFile m) k =
      lookupD m k ++
        ((fs.filter (fun f => f.Mode ≠ FileMode.DELETED ∧ f.NewName = k)).map
          addedNumbers).flatten := by
  induction fs generalizing m with
  | nil => simp
  | cons f t ih =>
    rw [List.foldl_cons, ih, lookupD_changedFile, List.filter_cons]
    by_cases hc : f.Mode ≠ FileMode.DELETED ∧ f.NewName = k <;> simp [hc]

theorem changed_skip_deleted (fs : List DiffFile) (m : List (String × List Nat)) :
    (fs.filter (fun f => f.Mode ≠ FileMode.DELETED)).foldl changedFile m =
      fs.foldl changedFile m := by
  induction fs generalizing m with
  | nil => rfl
  | cons f t ih =>
    rw [List.filter_cons]
    by_cases hd : f.Mode = FileMode.DELETED
    · have hcf : changedFile m f = m := by simp [changedFile, hd]
      simp only [hd, List.foldl_cons, hcf]
      rw [if_neg (by simp [hd])]
      exact ih m
    · rw [if_pos (by simp [hd])]
      simp only [List.foldl_cons]
      exact ih (changedFile m f)

theorem filter_nil_of_no_name (t : List DiffFile) (nm : String)
    (hall : ∀ x ∈ t, x.Mode ≠ FileMode.DELETED → x.NewName ≠ nm) :
    t.filter (fun g => g.Mode ≠ FileMode.DELETED ∧ g.NewName = nm) = [] := by
  rw [List.filter_eq_nil_iff]
  intro a ha
  simp only [decide_eq_true_eq, not_and]
  intro hnd
  exact hall a ha hnd

theorem filter_name_single (fs : List DiffFile) (f : DiffFile)
    (hf : f ∈ fs) (hd : f.Mode ≠ FileMode.DELETED)
    (hdist : (fs.filter (fun g => g.Mode ≠ FileMode.DELETED)).Pairwise
      (fun a b => a.NewName ≠ b.NewName)) :
    fs.filter (fun g => g.Mode ≠ FileMode.DELETED ∧ g.NewName = f.NewName) = [f] := by
  induction fs with
  | nil => exact absurd hf (List.not_mem_nil f)
  | cons g t ih =>
    by_cases hgd : g.Mode = FileMode.DELETED
    · have hfg : f ≠ g := fun he => hd (he ▸ hgd)
      have hft : f ∈ t := (List.mem_cons.mp hf).resolve_left hfg
      have hdist2 : (t.filter (fun g => g.Mode ≠ FileMode.DELETED)).Pairwise
          (fun a b => a.NewName ≠ b.NewName) := by
        rw [List.filter_cons, if_neg (by simp [hgd])] at hdist
        exact hdist
      rw [List.filter_cons, if_neg (by simp [hgd])]
      exact ih hft hdist2
    · have hdist2 : ((g :: t.filter (fun g => g.Mode ≠ FileMode.DELETED)) :
          List DiffFile).Pairwise (fun a b => a.NewName ≠ b.NewName) := by
        rw [List.filter_cons, if_pos (by simp [hgd])] at hdist
        exact hdist
      rcases List.mem_cons.mp hf with hfg | hft
      · subst hfg
        rw [List.filter_cons, if_pos (by simp [hgd])]
        rw [filter_nil_of_no_name t f.NewName ?hall]
        case hall =>
          intro x hx hxnd hxname
          have hxmem : x ∈ t.filter (fun g => g.Mode ≠ FileMode.DELETED) :=
            List.mem_filter.mpr ⟨hx, by simpa using hxnd⟩
          exact (List.pairwise_cons.mp hdist2).1 x hxmem hxname.symm
      · have hgn : ¬ (g.Mode ≠ FileMode.DELETED ∧ g.NewName = f.NewName) := by
          rintro ⟨-, hgn⟩
          have hfmem : f ∈ t.filter (fun g => g.Mode ≠ FileMode.DELETED) :=
            List.mem_filter.mpr ⟨hft, by simpa using hd⟩
          exact (List.pairwise_cons.mp hdist2).1 f hfmem hgn
        rw [List.filter_cons, if_neg (by simpa using hgn)]
        exact ih hft (List.pairwise_cons.mp hdist2).2

/-- C8: `Changed` draws no entry from `DELETED` files (filtering them out
first yields the identical map), and — whenever the non-deleted files'
new paths are pairwise distinct, so that "the file's entry" is
well-defined — the entry under a non-deleted file's new path is exactly
the list of line numbers of the `ADDED` lines of its hunks' new ranges, in
hunk order and line order. -/
theorem C8_changed_added_lines (d : Diff) :
    Changed { d with Files := d.Files.filter (fun f => f.Mode ≠ FileMode.DELETED) } =
      Changed d ∧
    ((d.Files.filter (fun f => f.Mode ≠ FileMode.DELETED)).Pairwise
        (fun a b => a.NewName ≠ b.NewName) →
      ∀ f ∈ d.Files, f.Mode ≠ FileMode.DELETED →
        lookupD (Changed d) f.NewName = addedNumbers f) := by
  constructor
  · exact changed_skip_deleted d.Files []
  · intro hdist f hf hd
    unfold Changed
    rw [lookupD_foldFiles, filter_name_single d.Files f hf hd hdist]
    simp [lookupD]

/-- Witness for `C8_changed_added_lines` on a concrete two-file diff (one
modified file with added lines 5 and 6 as in Scenario E, one deleted file
with an added line that must contribute nothing). -/
theorem C8_changed_added_lines_witness :
    (c8diff.Files.filter (fun f => f.Mode ≠ FileMode.DELETED)).Pairwise
      (fun a b => a.NewName ≠ b.NewName) ∧
    (c8xFile ∈ c8diff.Files ∧ c8xFile.Mode ≠ FileMode.DELETED) ∧
    lookupD (Changed c8diff) c8xFile.NewName = addedNumbers c8xFile :=
  ⟨by decide, ⟨by decide, by decide⟩,
    (C8_changed_added_lines c8diff).2 (by decide) c8xFile (by decide) (by decide)⟩

/-! ## Claim C10 -/

/-- C10: on a file-start line the original path is populated (with the
prefix stripped) exactly when the line has at least three
whitespace-separated fields and the second-to-last one starts with `a/`,
and the new path exactly when the last one starts with `b/`; in every
other case — including fewer than three fields — the attribute stays
empty, and `Changed` then keys such a file under the empty string (shown
on a concrete diff whose file-start line is `diff x y z`). -/
theorem C10_filename_extraction :
    (∀ (s : ParseState) (l : String) (rest : List String),
      strHasPref l "diff " = true →
      (((nextState (processLine s l rest)).bind lastFile).map DiffFile.OrigName =
        some (if (goFields l).length ≥ 3 ∧
            strHasPref ((goFields l).getD ((goFields l).length - 2) "") "a/" = true
          then String.mk (((goFields l).getD ((goFields l).length - 2) "").data.drop 2)
          else "") ∧
      ((nextState (processLine s l rest)).bind lastFile).map DiffFile.NewName =
        some (if (goFields l).length ≥ 3 ∧
            strHasPref ((goFields l).getD ((goFields l).length - 1) "") "b/" = true
          then String.mk (((goFields l).getD ((goFields l).length - 1) "").data.drop 2)
          else ""))) ∧
    changedOf (Parse "diff x y z\n@@ -1,1 +1,1 @@\n+n") = [("", [1])] := by
  constructor
  · intro s l rest hpre
    have hstep : processLine s l rest = StepResult.next
        { s with
            diffPosCount := s.diffPosCount + 1
            inHunk := false
            firstHunkInFile := true
            files := s.files ++ [{ parseFileNames l
                { DiffHeader := "", Mode := FileMode.MODIFIED, OrigName := "",
                  NewName := "", Hunks := [] } with DiffHeader := buildHeader l rest }] } := by
      simp only [processLine, hpre, if_pos]
    rw [hstep]
    simp only [nextState, Option.some_bind, lastFile, List.getLast?_concat, Option.map_some']
    constructor
    · refine congrArg some ?_
      simp only [parseFileNames]
      split
      · rename_i h3
        split
        · split <;> rename_i ha <;> simp only [List.getD, List.get?_eq_getElem?] at ha <;> simp [h3, ha]
        · split <;> rename_i ha <;> simp only [List.getD, List.get?_eq_getElem?] at ha <;> simp [h3, ha]
      · rename_i h3
        simp [h3]
    · refine congrArg some ?_
      simp only [parseFileNames]
      split
      · rename_i h3
        split
        · rename_i hb
          simp only [List.getD, List.get?_eq_getElem?] at hb
          simp [h3, hb]
        · rename_i hb
          simp only [List.getD, List.get?_eq_getElem?] at hb
          split <;> simp [h3, hb]
      · rename_i h3
        simp [h3]
  · rfl

/-- Witness for `C10_filename_extraction` at a concrete file-start
line. -/
theorem C10_filename_extraction_witness :
    strHasPref "diff --git a/q b/q" "diff " = true ∧
    ((nextState (processLine initState "diff --git a/q b/q" [])).bind lastFile).map
        DiffFile.OrigName =
      some (if (goFields "diff --git a/q b/q").length ≥ 3 ∧
          strHasPref ((goFields "diff --git a/q b/q").getD
            ((goFields "diff --git a/q b/q").length - 2) "") "a/" = true
        then String.mk (((goFields "diff --git a/q b/q").getD
          ((goFields "diff --git a/q b/q").length - 2) "").data.drop 2)
        else "") :=
  ⟨rfl, (C10_filename_extraction.1 initState "diff --git a/q b/q" [] rfl).1⟩

end Diffparser
